import Mathlib

/-!
Verification of the client-side collaborative scheduling engine of the
tanda-hackathon repository (src/components/EventCalendar.tsx).

The development shallowly embeds the scheduling logic:
* instants are modelled as integer milliseconds since the epoch
  (JavaScript `Date.getTime()` values);
* hour arithmetic, performed with JavaScript numbers in the source, is
  modelled with exact rationals (`Rat`);
* the React component's handlers become pure functions from the current
  snapshot (the `tasks` state) to an explicit outcome value that records
  which store mutation, error, or silent return the handler performs.
-/

namespace EventCalendar

/-- A volunteer row (src/lib/types/database.ts, `Volunteer`); only the
fields read by the scheduling logic are carried. -/
structure Volunteer where
  id : String
  name : String
deriving DecidableEq, Repr

/-- A nested assignment as delivered to `EventCalendar` by the store
query: `task_assignments(id, volunteer:volunteers(*))`. -/
structure Assignment where
  id : String
  volunteer : Volunteer
deriving DecidableEq, Repr

/-- A task type row; `EventCalendar.getDayItems` only consults `id`. -/
structure TaskType where
  id : String
  name : String
  color : String
deriving DecidableEq, Repr

/-- An `ExtendedTask` of `EventCalendar.tsx`: a task joined with its
assignments.  `start_datetime` / `end_datetime` are wall-clock instants in
milliseconds.  `group_id` is the optional grouping key the day-item
grouping reads defensively (`(t as any).group_id`). -/
structure Task where
  id : String
  name : String
  task_type_id : Option String
  group_id : Option String
  start_datetime : Int
  end_datetime : Int
  volunteers_required : Nat
  task_assignments : List Assignment
deriving DecidableEq, Repr

/-- The event row fields the scheduling logic reads.
`max_volunteer_hours` is `DECIMAL(5,2)`, nullable, in the schema. -/
structure Event where
  id : String
  min_volunteer_hours : Rat
  max_volunteer_hours : Option Rat
deriving DecidableEq, Repr

/-- JavaScript falsiness of a nullable string (`null` and `''` are falsy). -/
def strFalsy : Option String → Bool
  | none => true
  | some s => s = ""

/-- JavaScript `a || b` on nullable strings. -/
def jsOrStr (a b : Option String) : Option String :=
  if strFalsy a then b else a

/-- Duration of a task in hours: `(end.getTime() - start.getTime()) / (1000*60*60)`. -/
def taskHours (t : Task) : Rat :=
  ((t.end_datetime - t.start_datetime : Int) : Rat) / 3600000

/-- `calculateVolunteerHours` (EventCalendar.tsx lines 594-611): the
signed-in volunteer's total assigned hours, summing `end - start` over
every task holding one of their assignments; overlapping tasks are not
deduplicated.  `if (!volunteerId) return 0` treats `null` and `''` as
signed out. -/
def calculateVolunteerHours (volunteerId : Option String) (tasks : List Task) : Rat :=
  match volunteerId with
  | none => 0
  | some vid =>
    if vid = "" then 0
    else
      tasks.foldl
        (fun total t =>
          if t.task_assignments.any (fun a => a.volunteer.id == vid) then
            total + taskHours t
          else total)
        0

/-- The externally visible effect of one `handleAssignTask` call: which
store mutation or user-facing error (if any) the handler produces. -/
inductive AssignOutcome where
  /-- no volunteer signed in: remember the task and open the auth modal -/
  | promptAuth (taskId : String)
  /-- `if (!task) return`: the task id is absent from the snapshot;
      silent return, no error and no store mutation -/
  | noTask
  /-- `throw new Error('You are already assigned to this task')` -/
  | alreadyAssigned
  /-- `throw new Error('This task is already full')` -/
  | taskFull
  /-- hour-cap rejection with the limit, current and candidate hours
      used in the error message; no store mutation -/
  | hourCapExceeded (limit current candidate : Rat)
  /-- the store insert `task_assignments.insert({task_id, volunteer_id})` -/
  | insert (taskId volunteerId : String)
deriving DecidableEq, Repr

/-- `handleAssignTask` (EventCalendar.tsx lines 613-676) as a pure
function of the snapshot.  `stateVolunteerId` is the `volunteerId` React
state and `overrideVolunteerId` the optional argument; the effective id
is `overrideVolunteerId || volunteerId`.  Note that the hour-cap branch
calls `calculateVolunteerHours`, which reads the *state* id, and that the
cap check runs only when `event.max_volunteer_hours` is truthy (non-null
and nonzero). -/
def handleAssignTask (event : Event) (tasks : List Task)
    (stateVolunteerId overrideVolunteerId : Option String)
    (taskId : String) : AssignOutcome :=
  match jsOrStr overrideVolunteerId stateVolunteerId with
  | none => .promptAuth taskId
  | some v =>
    if v = "" then .promptAuth taskId
    else
      match tasks.find? (fun t => t.id == taskId) with
      | none => .noTask
      | some task =>
        if task.task_assignments.any (fun a => a.volunteer.id == v) then
          .alreadyAssigned
        else if task.volunteers_required ≤ task.task_assignments.length then
          .taskFull
        else
          match event.max_volunteer_hours with
          | none => .insert taskId v
          | some h =>
            if h = 0 then .insert taskId v
            else
              let currentHours := calculateVolunteerHours stateVolunteerId tasks
              let candidate := taskHours task
              if h < currentHours + candidate then
                .hourCapExceeded h currentHours candidate
              else .insert taskId v

/-- The externally visible effect of one `handleUnassignTask` call. -/
inductive UnassignOutcome where
  /-- any of the early returns: signed out, task missing, or no
      assignment held by this volunteer on the task -/
  | noop
  /-- the store delete `task_assignments.delete().eq('id', assignmentId)` -/
  | delete (assignmentId : String)
deriving DecidableEq, Repr

/-- `handleUnassignTask` (EventCalendar.tsx lines 678-709) as a pure
function of the snapshot. -/
def handleUnassignTask (tasks : List Task) (volunteerId : Option String)
    (taskId : String) : UnassignOutcome :=
  match volunteerId with
  | none => .noop
  | some vid =>
    if vid = "" then .noop
    else
      match tasks.find? (fun t => t.id == taskId) with
      | none => .noop
      | some task =>
        match task.task_assignments.find? (fun a => a.volunteer.id == vid) with
        | none => .noop
        | some a => .delete a.id

/-! ### Interval Packer (`getDayItems`, EventCalendar.tsx lines 747-820) -/

/-- End-of-day instant: `dayEnd.setHours(23, 59, 59, 999)`, i.e. the day
start plus 86,399,999 ms. -/
def dayEndOf (dayStart : Int) : Int := dayStart + 86399999

/-- Day-task selection: `taskStart <= dayEnd && taskEnd >= dayStart`
(both comparisons inclusive in the source). -/
def selectDayTasks (tasks : List Task) (dayStart : Int) : List Task :=
  tasks.filter fun t =>
    decide (t.start_datetime ≤ dayEndOf dayStart) && decide (dayStart ≤ t.end_datetime)

/-- Grouping key: `(t as any).group_id || t.name || t.id` with JavaScript
string falsiness. -/
def groupKey (t : Task) : String :=
  match t.group_id with
  | some g => if g = "" then (if t.name = "" then t.id else t.name) else g
  | none => if t.name = "" then t.id else t.name

/-- Append a task to its group, preserving first-occurrence order of
keys (JavaScript `Map` iteration order). -/
def insertGrouped (key : String) (t : Task) :
    List (String × List Task) → List (String × List Task)
  | [] => [(key, [t])]
  | (k, ts) :: rest =>
    if k = key then (k, ts ++ [t]) :: rest else (k, ts) :: insertGrouped key t rest

/-- Build the `groups` map of `getDayItems` in insertion order. -/
def groupTasks (tasks : List Task) : List (String × List Task) :=
  tasks.foldl (fun gs t => insertGrouped (groupKey t) t gs) []

/-- `Math.min` over the start instants of a group (groups are nonempty
by construction; the empty case is unreachable). -/
def minStart : List Task → Int
  | [] => 0
  | t :: rest => rest.foldl (fun m x => min m x.start_datetime) t.start_datetime

/-- `Math.max` over the end instants of a group. -/
def maxEnd : List Task → Int
  | [] => 0
  | t :: rest => rest.foldl (fun m x => max m x.end_datetime) t.end_datetime

/-- A grouped day item before/after column placement: merged span clipped
to the day bounds, with summed capacity and assignment counts.  `stop` is
the `end` field of the source (a reserved word in Lean). -/
structure DayItem where
  id : String
  start : Int
  stop : Int
  tasks : List Task
  volunteers_required : Nat
  assignment_count : Nat
  task_type : Option TaskType
deriving DecidableEq, Repr

/-- Build one `DayItem` from a group: merged span, summed
`volunteers_required` and assignment count, first member's task type,
then clip to `[dayStart, dayEnd]`. -/
def mkDayItem (taskTypes : List TaskType) (dayStart : Int)
    (g : String × List Task) : DayItem :=
  let start := minStart g.2
  let stop := maxEnd g.2
  { id := g.1
    start := max start dayStart
    stop := min stop (dayEndOf dayStart)
    tasks := g.2
    volunteers_required := g.2.foldl (fun s t => s + t.volunteers_required) 0
    assignment_count := g.2.foldl (fun s t => s + t.task_assignments.length) 0
    task_type :=
      match g.2 with
      | [] => none
      | t :: _ =>
        match t.task_type_id with
        | none => none
        | some tid => taskTypes.find? (fun tt => tt.id == tid) }

/-- Stable insertion of `x` into `l`: `x` is placed before the first
element strictly greater, so elements with equal keys keep their
original relative order (JavaScript `Array.prototype.sort` is stable). -/
def insertByStart (x : DayItem) : List DayItem → List DayItem
  | [] => [x]
  | y :: ys => if x.start < y.start then x :: y :: ys else y :: insertByStart x ys

/-- Stable sort by clipped start ascending
(`items.sort((a, b) => a.start.getTime() - b.start.getTime())`). -/
def sortByStart (items : List DayItem) : List DayItem :=
  items.foldl (fun acc x => insertByStart x acc) []

/-- Index of the first column whose end time is `≤ s` (the inner `for`
loop of the greedy placement), if any. -/
def findCol (s : Int) : List Int → Option Nat
  | [] => none
  | c :: rest => if c ≤ s then some 0 else (findCol s rest).map (· + 1)

/-- Greedy interval-partitioning loop: `cols` holds per-column end
times, `acc` the items already positioned with their column index.  A
reused column's end time is overwritten with the item's end; otherwise a
new column is opened. -/
def packAux (cols : List Int) (acc : List (DayItem × Nat)) :
    List DayItem → List (DayItem × Nat) × List Int
  | [] => (acc, cols)
  | it :: rest =>
    match findCol it.start cols with
    | some ci => packAux (cols.set ci it.stop) (acc ++ [(it, ci)]) rest
    | none => packAux (cols ++ [it.stop]) (acc ++ [(it, cols.length)]) rest

/-- `getDayItems`: select, group, merge and clip, sort by start, and
assign columns greedily.  Returns each item with its `_col` index,
together with the `_cols` total column count for the day. -/
def getDayItems (taskTypes : List TaskType) (filteredTasks : List Task)
    (dayStart : Int) : List (DayItem × Nat) × Nat :=
  let dayTasks := selectDayTasks filteredTasks dayStart
  let items := (groupTasks dayTasks).map (mkDayItem taskTypes dayStart)
  let r := packAux [] [] (sortByStart items)
  (r.1, r.2.length)

/-- Number of day items whose clipped half-open interval `[start, stop)`
contains the instant `t`. -/
def depthAt (items : List DayItem) (t : Int) : Nat :=
  (items.filter fun p => decide (p.start ≤ t) && decide (t < p.stop)).length

/-- Depth counted over positioned items (pairs of item and column). -/
def accDepth (acc : List (DayItem × Nat)) (t : Int) : Nat :=
  (acc.filter fun pc => decide (pc.1.start ≤ t) && decide (t < pc.1.stop)).length

/-- A lower bound for the start instants of a list of day items. -/
def itemsLowerBound (items : List DayItem) : Int :=
  (items.map DayItem.start).foldr min 0

/-- Loop invariant of the greedy placement (`packAux`).  `cols` are the
current column end times, `acc` the items already positioned, and every
item still to be placed starts at or after `bound`:
* every recorded column index is in range;
* a positioned item's end is at most its column's current end time,
  unless a later item (started by `bound`) has already reused the column;
* positioned items started at or before `bound`;
* every column end time is the end of some positioned item in it;
* two items in the same column are disjoint in placement order. -/
structure PackInv (cols : List Int) (acc : List (DayItem × Nat)) (bound : Int) : Prop where
  colLt : ∀ pc ∈ acc, pc.2 < cols.length
  colVal : ∀ pc ∈ acc, ∀ v, cols[pc.2]? = some v → pc.1.stop ≤ v ∨ pc.1.stop ≤ bound
  startLe : ∀ pc ∈ acc, pc.1.start ≤ bound
  support : ∀ ci v, cols[ci]? = some v → ∃ pc ∈ acc, pc.2 = ci ∧ pc.1.stop = v
  sameColDisj : acc.Pairwise (fun a b => a.2 = b.2 → a.1.stop ≤ b.1.start)

/-- Witness that some instant is simultaneously covered by as many
positioned items as there are columns (trivial while no column exists). -/
def DepthWit (cols : List Int) (acc : List (DayItem × Nat)) : Prop :=
  cols = [] ∨ ∃ t, cols.length ≤ accDepth acc t

/-! ### Polling fallback (EventCalendar.tsx lines 247-291)

The effect installs a watcher `setInterval` firing every 2000 ms which
starts polling when `Date.now() - lastRealtimeRef.current > 30000` and
stops it otherwise; an initial check runs at mount.  The poll
`setInterval` fires every 5000 ms from the moment polling started and,
crucially, each poll tick ends with `lastRealtimeRef.current = Date.now()`.

We model executions in which no change-feed signal arrives (the scenario
of the polling claim).  All timer deadlines are then multiples of 1000 ms
relative to the mount instant `M`, so the execution is simulated on a
1000 ms grid: `simRun M k` is the state `k` seconds after mount.
`lastRealtimeRef` starts at `0` (the epoch). -/

structure SyncSt where
  /-- `lastRealtimeRef.current`: absolute ms of the last realtime signal
      or successful poll tick (initially `0`). -/
  last : Int
  /-- `some p` while polling, where `p` is the absolute instant
      `startPoll` ran (poll ticks fire at `p + 5000·j`, `j ≥ 1`);
      `none` while not polling. -/
  pollingSince : Option Int
deriving DecidableEq, Repr

/-- The watcher body: start polling when quiet for more than 30 s
(`startPoll` is a no-op if already polling), stop it otherwise. -/
def watcherTick (now : Int) (s : SyncSt) : SyncSt :=
  if 30000 < now - s.last then
    { s with pollingSince := match s.pollingSince with
                             | some p => some p
                             | none => some now }
  else
    { s with pollingSince := none }

/-- Whether a poll tick of the interval started at `p` fires at `now`
(ticks at `p + 5000·j`, `j ≥ 1`). -/
def pollTickDue (p now : Int) : Bool :=
  decide ((now - p) % 5000 = 0) && decide (p < now)

/-- One 1000 ms simulation step at relative time `t` (absolute `M + t`):
the watcher fires at multiples of 2000 ms, then a due poll tick (if
polling) refreshes and sets `lastRealtimeRef.current = Date.now()`.  The
watcher interval is registered before the poll interval, so it runs
first on shared deadlines. -/
def simStep (M t : Int) (s : SyncSt) : SyncSt :=
  let now := M + t
  let s1 := if t % 2000 = 0 then watcherTick now s else s
  match s1.pollingSince with
  | some p => if pollTickDue p now then { s1 with last := now } else s1
  | none => s1

/-- Mount-time initialization: `lastRealtimeRef` is `0` and the initial
check `if (Date.now() - (lastRealtimeRef.current || 0) > QUIET_THRESHOLD)
startPoll()` runs immediately. -/
def simInit (M : Int) : SyncSt :=
  if 30000 < M - 0 then ⟨0, some M⟩ else ⟨0, none⟩

/-- State of the signal-free execution `k` seconds after mounting at
absolute instant `M`. -/
def simRun (M : Int) : Nat → SyncSt
  | 0 => simInit M
  | k + 1 => simStep M (1000 * (k + 1 : Nat)) (simRun M k)

/-! ### Refresh coalescing (`throttledRefresh`, EventCalendar.tsx lines 463-489) -/

/-- The two refs driving `throttledRefresh`: the instant of the last
refresh (`lastRefreshRef`, initially `0`) and the pending trailing
timer, recorded by its absolute fire instant. -/
structure ThrState where
  lastRefresh : Int
  pending : Option Int
deriving DecidableEq, Repr

/-- One `throttledRefresh()` call at instant `now`: clear any pending
trailing timer; if at least 1000 ms passed since the last refresh,
refresh immediately (returned as `some now`), else schedule the single
trailing refresh at `lastRefresh + 1000`. -/
def throttledRefresh (now : Int) (st : ThrState) : ThrState × Option Int :=
  if 1000 ≤ now - st.lastRefresh then
    ({ lastRefresh := now, pending := none }, some now)
  else
    ({ lastRefresh := st.lastRefresh, pending := some (st.lastRefresh + 1000) }, none)

/-- Process a time-ordered list of change-feed signal instants, firing
the pending trailing timer whenever it is due before the next signal,
and letting it fire at the end.  Returns the instants at which
`refreshTasks` runs. -/
def runSignals (st : ThrState) : List Int → List Int
  | [] =>
    match st.pending with
    | some f => [f]
    | none => []
  | t :: rest =>
    match st.pending with
    | some f =>
      if f ≤ t then
        -- the trailing timer fires at `f`, setting `lastRefresh` to `f`
        let r := throttledRefresh t ⟨f, none⟩
        f :: (r.2.toList ++ runSignals r.1 rest)
      else
        let r := throttledRefresh t st
        r.2.toList ++ runSignals r.1 rest
    | none =>
      let r := throttledRefresh t st
      r.2.toList ++ runSignals r.1 rest

/-! ## Theorems -/

/-- Summation form of the hour computation: an accumulator-threading
`forEach` equals the sum over the tasks passing the assignment test. -/
theorem foldl_cond_add (P : Task → Bool) (l : List Task) (init : Rat) :
    l.foldl (fun total t => if P t then total + taskHours t else total) init
      = init + ((l.filter P).map taskHours).sum := by
  induction l generalizing init with
  | nil => simp
  | cons t rest ih =>
    by_cases hp : P t
    · simp [hp, ih, add_assoc]
    · simp [hp, ih]

/-- `calculateVolunteerHours` computes the sum of `(end - start)` hours
over exactly the tasks on which the signed-in volunteer holds an
assignment (overlapping tasks are counted separately, not deduplicated). -/
theorem calculateVolunteerHours_eq_sum (vid : String) (tasks : List Task) (h : vid ≠ "") :
    calculateVolunteerHours (some vid) tasks
      = ((tasks.filter
            (fun t => t.task_assignments.any (fun a => a.volunteer.id == vid))).map
          taskHours).sum := by
  simp only [calculateVolunteerHours]
  rw [if_neg h, foldl_cond_add]
  simp

/-- C6 (amended): a task is selected for a day iff its start lies before
the next midnight and its end lies at or after the day start — i.e. the
code intersects the *closed* interval `[dayStart, dayStart + 86399999]`
with `[start, end]`, so a task whose end equals the day start *is*
selected (contrary to the half-open `[start, end)` reading). -/
theorem mem_selectDayTasks_iff (tasks : List Task) (dayStart : Int) (t : Task) :
    t ∈ selectDayTasks tasks dayStart ↔
      t ∈ tasks ∧ t.start_datetime < dayStart + 86400000 ∧ dayStart ≤ t.end_datetime := by
  simp only [selectDayTasks, List.mem_filter, Bool.and_eq_true, decide_eq_true_eq, dayEndOf]
  constructor
  · rintro ⟨h1, h2, h3⟩
    exact ⟨h1, by omega, h3⟩
  · rintro ⟨h1, h2, h3⟩
    exact ⟨h1, by omega, h3⟩

/-- C6 fails as stated: a task whose end instant equals the day start
(midnight at the start of the day) has empty intersection with the
half-open day interval, yet `getDayItems` selects it for that day. -/
theorem selectDayTasks_midnight_boundary_cex :
    selectDayTasks [⟨"z", "Z", none, none, -3600000, 0, 1, []⟩] 0
        = [⟨"z", "Z", none, none, -3600000, 0, 1, []⟩]
      ∧ (⟨"z", "Z", none, none, -3600000, 0, 1, []⟩ : Task).end_datetime = 0
      ∧ min ((0 : Int) + 86400000) 0 ≤ max 0 (-3600000) := by
  refine ⟨by decide, by decide, by decide⟩

/-- C8: a volunteer already holding an assignment on the task is always
rejected with the duplicate-assignment error (`alreadyAssigned`), for
every snapshot; in particular the outcome is never the store insert. -/
theorem assign_duplicate_rejected (event : Event) (tasks : List Task)
    (vid taskId : String) (task : Task)
    (hvid : vid ≠ "")
    (hfind : tasks.find? (fun t => t.id == taskId) = some task)
    (hdup : task.task_assignments.any (fun a => a.volunteer.id == vid) = true) :
    handleAssignTask event tasks (some vid) none taskId = .alreadyAssigned := by
  unfold handleAssignTask jsOrStr strFalsy
  simp [hvid, hfind, hdup]

theorem assign_duplicate_rejected_witness :
    ("v1" : String) ≠ ""
      ∧ handleAssignTask ⟨"e", 0, none⟩
          [⟨"t1", "Shift", none, none, 0, 3600000, 1, [⟨"a1", ⟨"v1", "Amy"⟩⟩]⟩]
          (some "v1") none "t1" = .alreadyAssigned :=
  ⟨by decide,
   assign_duplicate_rejected ⟨"e", 0, none⟩
     [⟨"t1", "Shift", none, none, 0, 3600000, 1, [⟨"a1", ⟨"v1", "Amy"⟩⟩]⟩]
     "v1" "t1" ⟨"t1", "Shift", none, none, 0, 3600000, 1, [⟨"a1", ⟨"v1", "Amy"⟩⟩]⟩
     (by decide) (by decide) (by decide)⟩

/-- C7: when the snapshot assignment count has reached
`volunteers_required`, an assign attempt by a volunteer not already on
the task yields the task-full rejection (no store insert); conversely a
store insert is only issued while the count is strictly below the
capacity, so accepted assignments never exceed it against the snapshot. -/
theorem assign_taskFull (event : Event) (tasks : List Task)
    (vid taskId : String) (task : Task)
    (hvid : vid ≠ "")
    (hfind : tasks.find? (fun t => t.id == taskId) = some task)
    (hdup : task.task_assignments.any (fun a => a.volunteer.id == vid) = false) :
    (task.volunteers_required ≤ task.task_assignments.length →
      handleAssignTask event tasks (some vid) none taskId = .taskFull)
    ∧ (∀ tid w, handleAssignTask event tasks (some vid) none taskId = .insert tid w →
        task.task_assignments.length < task.volunteers_required) := by
  constructor
  · intro hfull
    unfold handleAssignTask jsOrStr strFalsy
    simp [hvid, hfind, hdup, hfull]
  · intro tid w h
    by_cases hfull : task.volunteers_required ≤ task.task_assignments.length
    · unfold handleAssignTask jsOrStr strFalsy at h
      simp [hvid, hfind, hdup, hfull] at h
    · omega

theorem assign_taskFull_witness :
    ("v2" : String) ≠ ""
      ∧ (1 : Nat) ≤ 1
      ∧ handleAssignTask ⟨"e", 0, none⟩
          [⟨"t1", "Shift", none, none, 0, 3600000, 1, [⟨"a1", ⟨"v1", "Amy"⟩⟩]⟩]
          (some "v2") none "t1" = .taskFull :=
  ⟨by decide, by decide,
   (assign_taskFull ⟨"e", 0, none⟩
      [⟨"t1", "Shift", none, none, 0, 3600000, 1, [⟨"a1", ⟨"v1", "Amy"⟩⟩]⟩]
      "v2" "t1" ⟨"t1", "Shift", none, none, 0, 3600000, 1, [⟨"a1", ⟨"v1", "Amy"⟩⟩]⟩
      (by decide) (by decide) (by decide)).1 (by decide)⟩

/-- C9: an assign request for a task id absent from the snapshot returns
silently (`noTask`: no error state, no store mutation); an unassign
request for a missing task, or with no existing assignment for the
(task, volunteer) pair, is likewise a no-op. -/
theorem assign_unassign_missing_noop (event : Event) (tasks : List Task)
    (vid taskId : String)
    (hvid : vid ≠ "") :
    (tasks.find? (fun t => t.id == taskId) = none →
      handleAssignTask event tasks (some vid) none taskId = .noTask
      ∧ handleUnassignTask tasks (some vid) taskId = .noop)
    ∧ (∀ task, tasks.find? (fun t => t.id == taskId) = some task →
        task.task_assignments.find? (fun a => a.volunteer.id == vid) = none →
        handleUnassignTask tasks (some vid) taskId = .noop) := by
  constructor
  · intro hf
    constructor
    · unfold handleAssignTask jsOrStr strFalsy
      simp [hvid, hf]
    · unfold handleUnassignTask
      simp [hvid, hf]
  · intro task hf ha
    unfold handleUnassignTask
    simp [hvid, hf, ha]

theorem assign_unassign_missing_noop_witness :
    ("v2" : String) ≠ ""
      ∧ (handleAssignTask ⟨"e", 0, none⟩
            [⟨"t1", "Shift", none, none, 0, 3600000, 1, [⟨"a1", ⟨"v1", "Amy"⟩⟩]⟩]
            (some "v2") none "missing" = .noTask
          ∧ handleUnassignTask
              [⟨"t1", "Shift", none, none, 0, 3600000, 1, [⟨"a1", ⟨"v1", "Amy"⟩⟩]⟩]
              (some "v2") "missing" = .noop)
      ∧ handleUnassignTask
          [⟨"t1", "Shift", none, none, 0, 3600000, 1, [⟨"a1", ⟨"v1", "Amy"⟩⟩]⟩]
          (some "v2") "t1" = .noop :=
  ⟨by decide,
   (assign_unassign_missing_noop ⟨"e", 0, none⟩
      [⟨"t1", "Shift", none, none, 0, 3600000, 1, [⟨"a1", ⟨"v1", "Amy"⟩⟩]⟩]
      "v2" "missing" (by decide)).1 (by decide),
   (assign_unassign_missing_noop ⟨"e", 0, none⟩
      [⟨"t1", "Shift", none, none, 0, 3600000, 1, [⟨"a1", ⟨"v1", "Amy"⟩⟩]⟩]
      "v2" "t1" (by decide)).2
     ⟨"t1", "Shift", none, none, 0, 3600000, 1, [⟨"a1", ⟨"v1", "Amy"⟩⟩]⟩
     (by decide) (by decide)⟩

/-- C10: the duplicate check runs strictly before the capacity check, and
the hour-cap check is unreachable once either fires: on a full task, a
volunteer already assigned gets the duplicate rejection (not task-full),
a volunteer not assigned gets the task-full rejection, and in neither
case can the outcome be the hour-cap rejection. -/
theorem assign_check_order (event : Event) (tasks : List Task)
    (vid taskId : String) (task : Task)
    (hvid : vid ≠ "")
    (hfind : tasks.find? (fun t => t.id == taskId) = some task)
    (hfull : task.volunteers_required ≤ task.task_assignments.length) :
    (task.task_assignments.any (fun a => a.volunteer.id == vid) = true →
      handleAssignTask event tasks (some vid) none taskId = .alreadyAssigned)
    ∧ (task.task_assignments.any (fun a => a.volunteer.id == vid) = false →
      handleAssignTask event tasks (some vid) none taskId = .taskFull)
    ∧ ∀ l c d, handleAssignTask event tasks (some vid) none taskId
        ≠ .hourCapExceeded l c d := by
  refine ⟨?_, ?_, ?_⟩
  · intro hdup
    unfold handleAssignTask jsOrStr strFalsy
    simp [hvid, hfind, hdup]
  · intro hdup
    unfold handleAssignTask jsOrStr strFalsy
    simp [hvid, hfind, hdup, hfull]
  · intro l c d h
    by_cases hdup : task.task_assignments.any (fun a => a.volunteer.id == vid) = true
    · unfold handleAssignTask jsOrStr strFalsy at h
      simp [hvid, hfind, hdup] at h
    · unfold handleAssignTask jsOrStr strFalsy at h
      simp [hvid, hfind, Bool.eq_false_iff.mpr hdup, hfull] at h

/-- C4 (amended): polling stops without any change-feed signal.  In a
signal-free execution mounted at wall instant `M` (any instant above the
30 s quiet threshold), polling starts immediately and is still active
through the first poll tick at `t = 5000` ms, which itself resets the
quiet timer (`lastRealtimeRef.current = Date.now()`); the watcher then
observes quiet below the threshold and stops polling at `t = 6000` ms.
Leaving the polling state therefore does not require a change-feed
signal. -/
theorem polling_stops_without_signal (M : Int) (hM : 30000 < M) :
    (simRun M 0).pollingSince = some M
      ∧ (simRun M 5).pollingSince = some M
      ∧ (simRun M 5).last = M + 5000
      ∧ (simRun M 6).pollingSince = none := by
  have unf : ∀ k : Nat, simRun M (k + 1) = simStep M (1000 * ((k + 1 : Nat) : Int)) (simRun M k) :=
    fun _ => rfl
  have h0 : simRun M 0 = ⟨0, some M⟩ := by
    simp only [simRun, simInit]
    rw [if_pos (show (30000 : Int) < M - 0 from by omega)]
  have due1 : pollTickDue M (M + 1000) = false := by
    norm_num [pollTickDue, add_sub_cancel_left]
  have due2 : pollTickDue M (M + 2000) = false := by
    norm_num [pollTickDue, add_sub_cancel_left]
  have due3 : pollTickDue M (M + 3000) = false := by
    norm_num [pollTickDue, add_sub_cancel_left]
  have due4 : pollTickDue M (M + 4000) = false := by
    norm_num [pollTickDue, add_sub_cancel_left]
  have due5 : pollTickDue M (M + 5000) = true := by
    norm_num [pollTickDue, add_sub_cancel_left]
  have s1 : simStep M 1000 ⟨0, some M⟩ = ⟨0, some M⟩ := by
    simp only [simStep]
    rw [if_neg (show ¬ ((1000 : Int) % 2000 = 0) from by norm_num)]
    simp [due1]
  have s2 : simStep M 2000 ⟨0, some M⟩ = ⟨0, some M⟩ := by
    simp only [simStep]
    rw [if_pos (show (2000 : Int) % 2000 = 0 from by norm_num)]
    simp only [watcherTick]
    rw [if_pos (show (30000 : Int) < M + 2000 - 0 from by omega)]
    simp [due2]
  have s3 : simStep M 3000 ⟨0, some M⟩ = ⟨0, some M⟩ := by
    simp only [simStep]
    rw [if_neg (show ¬ ((3000 : Int) % 2000 = 0) from by norm_num)]
    simp [due3]
  have s4 : simStep M 4000 ⟨0, some M⟩ = ⟨0, some M⟩ := by
    simp only [simStep]
    rw [if_pos (show (4000 : Int) % 2000 = 0 from by norm_num)]
    simp only [watcherTick]
    rw [if_pos (show (30000 : Int) < M + 4000 - 0 from by omega)]
    simp [due4]
  have s5 : simStep M 5000 ⟨0, some M⟩ = ⟨M + 5000, some M⟩ := by
    simp only [simStep]
    rw [if_neg (show ¬ ((5000 : Int) % 2000 = 0) from by norm_num)]
    simp [due5]
  have s6 : simStep M 6000 ⟨M + 5000, some M⟩ = ⟨M + 5000, none⟩ := by
    simp only [simStep]
    rw [if_pos (show (6000 : Int) % 2000 = 0 from by norm_num)]
    simp only [watcherTick]
    rw [if_neg (show ¬ ((30000 : Int) < M + 6000 - (M + 5000)) from by omega)]
  have r1 : simRun M 1 = ⟨0, some M⟩ := by
    rw [show (1 : Nat) = 0 + 1 from rfl, unf 0, h0]
    exact s1
  have r2 : simRun M 2 = ⟨0, some M⟩ := by
    rw [show (2 : Nat) = 1 + 1 from rfl, unf 1, r1]
    exact s2
  have r3 : simRun M 3 = ⟨0, some M⟩ := by
    rw [show (3 : Nat) = 2 + 1 from rfl, unf 2, r2]
    exact s3
  have r4 : simRun M 4 = ⟨0, some M⟩ := by
    rw [show (4 : Nat) = 3 + 1 from rfl, unf 3, r3]
    exact s4
  have r5 : simRun M 5 = ⟨M + 5000, some M⟩ := by
    rw [show (5 : Nat) = 4 + 1 from rfl, unf 4, r4]
    exact s5
  have r6 : simRun M 6 = ⟨M + 5000, none⟩ := by
    rw [show (6 : Nat) = 5 + 1 from rfl, unf 5, r5]
    exact s6
  exact ⟨by rw [h0], by rw [r5], by rw [r5], by rw [r6]⟩

theorem polling_stops_without_signal_witness :
    (30000 : Int) < 100000
      ∧ ((simRun 100000 0).pollingSince = some 100000
          ∧ (simRun 100000 5).pollingSince = some 100000
          ∧ (simRun 100000 5).last = 100000 + 5000
          ∧ (simRun 100000 6).pollingSince = none) :=
  ⟨by decide, polling_stops_without_signal 100000 (by decide)⟩

/-- C4 fails as stated: in the signal-free execution mounted at
`M = 100000`, polling is active from mount through `t = 5` s but has
been stopped by `t = 6` s even though no change-feed signal ever
arrived, so polling is not sustained until a signal is observed. -/
theorem polling_stops_cex :
    (simRun 100000 0).pollingSince = some 100000
      ∧ (simRun 100000 5).pollingSince = some 100000
      ∧ (simRun 100000 6).pollingSince = none := by
  refine ⟨by decide, by decide, by decide⟩

/-- Trailing-timer steady state: while further signals arrive strictly
inside the cooldown window that started with the refresh at `t1`, the
single pending trailing refresh stays scheduled at `t1 + 1000` (each
signal cancels and re-creates it) and fires exactly once at the end. -/
theorem runSignals_pending (t1 : Int) (rest : List Int)
    (hwin : ∀ t ∈ rest, t1 ≤ t ∧ t < t1 + 1000) :
    runSignals ⟨t1, some (t1 + 1000)⟩ rest = [t1 + 1000] := by
  induction rest with
  | nil => rfl
  | cons r rs ih =>
    obtain ⟨hr1, hr2⟩ := hwin r (by simp)
    have hnf : ¬ (t1 + 1000 ≤ r) := by omega
    have hnc : ¬ (1000 ≤ r - t1) := by omega
    simp only [runSignals, throttledRefresh, hnf, if_false, if_neg hnc]
    simpa using ih (fun t ht => hwin t (by simp [ht]))

/-- C5 (amended): for `N ≥ 1` change-feed signals routed through
`throttledRefresh`, all arriving within the 1-second window that starts
at the first signal `t1`, with the cooldown fully elapsed before `t1`:
the first signal refreshes immediately at `t1`, and the remaining
`N - 1` signals coalesce into exactly one trailing refresh scheduled at
`t1 + 1000` (each one cancelling and replacing the previous pending
timer).  So one refresh fires for `N = 1` and exactly two (`t1` and
`t1 + 1000`) for `N ≥ 2` — not one refresh at `t1 + 1000`. -/
theorem coalesce_window_refreshes (lastR t1 : Int) (rest : List Int)
    (hcool : 1000 ≤ t1 - lastR)
    (hwin : ∀ t ∈ rest, t1 ≤ t ∧ t < t1 + 1000) :
    runSignals ⟨lastR, none⟩ (t1 :: rest) =
      t1 :: (if rest.isEmpty then [] else [t1 + 1000]) := by
  simp only [runSignals, throttledRefresh, if_pos hcool]
  cases rest with
  | nil => rfl
  | cons r rs =>
    obtain ⟨hr1, hr2⟩ := hwin r (by simp)
    have hnc : ¬ (1000 ≤ r - t1) := by omega
    simp only [runSignals, throttledRefresh, if_neg hnc, List.isEmpty_cons]
    simpa using runSignals_pending t1 rs (fun t ht => hwin t (by simp [ht]))

theorem coalesce_window_refreshes_witness :
    ((1000 : Int) ≤ 2000 - 0 ∧ (2000 : Int) ≤ 2500 ∧ (2500 : Int) < 2000 + 1000)
      ∧ runSignals ⟨0, none⟩ [2000, 2500] = 2000 :: [2000 + 1000] :=
  ⟨⟨by decide, by decide, by decide⟩,
   coalesce_window_refreshes 0 2000 [2500] (by decide)
     (by intro t ht; simp at ht; omega)⟩

/-- C5 fails as stated: two signals at `2000` and `2500` ms (cooldown
elapsed, both within one window) produce *two* refresh calls, at `2000`
and `3000` ms — not exactly one call at first-signal-plus-cooldown. -/
theorem coalesce_two_refreshes_cex :
    runSignals ⟨0, none⟩ [2000, 2500] = [2000, 3000]
      ∧ runSignals ⟨0, none⟩ [2000, 2500] ≠ [3000]
      ∧ (runSignals ⟨0, none⟩ [2000, 2500]).length ≠ 1 := by
  refine ⟨by decide, by decide, by decide⟩

/-- C1 (amended): with a *nonzero* hour cap `H` set on the event, an
assign attempt by a signed-in volunteer on a present, not-full task they
are not assigned to is rejected with the hour-cap error iff
`C + D > H`, where `C` is the volunteer's current total and `D` the
candidate task's duration; at the boundary `C + D = H` the store insert
is issued.  `C` is the non-deduplicated sum of `(end - start)` hours
over the tasks holding one of the volunteer's assignments. -/
theorem assign_hourCap_iff (event : Event) (tasks : List Task)
    (vid taskId : String) (task : Task) (H : Rat)
    (hmax : event.max_volunteer_hours = some H) (hH : H ≠ 0)
    (hvid : vid ≠ "")
    (hfind : tasks.find? (fun t => t.id == taskId) = some task)
    (hdup : task.task_assignments.any (fun a => a.volunteer.id == vid) = false)
    (hroom : task.task_assignments.length < task.volunteers_required) :
    (handleAssignTask event tasks (some vid) none taskId
        = .hourCapExceeded H (calculateVolunteerHours (some vid) tasks) (taskHours task)
      ↔ H < calculateVolunteerHours (some vid) tasks + taskHours task)
    ∧ (calculateVolunteerHours (some vid) tasks + taskHours task = H →
        handleAssignTask event tasks (some vid) none taskId = .insert taskId vid)
    ∧ calculateVolunteerHours (some vid) tasks
        = ((tasks.filter
              (fun t => t.task_assignments.any (fun a => a.volunteer.id == vid))).map
            taskHours).sum := by
  have hnotfull : ¬ task.volunteers_required ≤ task.task_assignments.length := by omega
  have hmain : handleAssignTask event tasks (some vid) none taskId
      = if H < calculateVolunteerHours (some vid) tasks + taskHours task then
          .hourCapExceeded H (calculateVolunteerHours (some vid) tasks) (taskHours task)
        else .insert taskId vid := by
    unfold handleAssignTask jsOrStr strFalsy
    simp [hvid, hfind, hdup, hnotfull, hmax, hH]
  refine ⟨?_, ?_, calculateVolunteerHours_eq_sum vid tasks hvid⟩
  · rw [hmain]
    by_cases hlt : H < calculateVolunteerHours (some vid) tasks + taskHours task
    · simp [hlt]
    · simp [hlt]
  · intro hb
    rw [hmain, if_neg (by rw [hb]; exact lt_irrefl H)]

/-- C1 fails as stated when the cap is *set to zero*: the hour-cap
branch guards on JavaScript truthiness of `event.max_volunteer_hours`,
so with `H = 0` the check is skipped entirely and an assignment with
`C + D = 1 > 0 = H` is inserted rather than rejected. -/
theorem assign_hourCap_zero_limit_cex :
    handleAssignTask ⟨"e", 0, some 0⟩ [⟨"t", "T", none, none, 0, 3600000, 1, []⟩]
        (some "v") none "t" = .insert "t" "v"
      ∧ (0 : Rat) <
          calculateVolunteerHours (some "v") [⟨"t", "T", none, none, 0, 3600000, 1, []⟩]
            + taskHours ⟨"t", "T", none, none, 0, 3600000, 1, []⟩ := by
  constructor
  · decide
  · norm_num [calculateVolunteerHours, taskHours]

theorem assign_hourCap_iff_witness :
    ((⟨"e", 0, some 8⟩ : Event).max_volunteer_hours = some 8 ∧ (8 : Rat) ≠ 0
        ∧ ("v1" : String) ≠ "")
      ∧ ((handleAssignTask ⟨"e", 0, some 8⟩
            [⟨"t3", "Five", none, none, 0, 18000000, 2, [⟨"a2", ⟨"v1", "Amy"⟩⟩]⟩,
             ⟨"t2", "Open", none, none, 0, 10800000, 2, []⟩]
            (some "v1") none "t2"
          = .hourCapExceeded 8
              (calculateVolunteerHours (some "v1")
                [⟨"t3", "Five", none, none, 0, 18000000, 2, [⟨"a2", ⟨"v1", "Amy"⟩⟩]⟩,
                 ⟨"t2", "Open", none, none, 0, 10800000, 2, []⟩])
              (taskHours ⟨"t2", "Open", none, none, 0, 10800000, 2, []⟩)
          ↔ 8 < calculateVolunteerHours (some "v1")
                  [⟨"t3", "Five", none, none, 0, 18000000, 2, [⟨"a2", ⟨"v1", "Amy"⟩⟩]⟩,
                   ⟨"t2", "Open", none, none, 0, 10800000, 2, []⟩]
                + taskHours ⟨"t2", "Open", none, none, 0, 10800000, 2, []⟩)
        ∧ (calculateVolunteerHours (some "v1")
              [⟨"t3", "Five", none, none, 0, 18000000, 2, [⟨"a2", ⟨"v1", "Amy"⟩⟩]⟩,
               ⟨"t2", "Open", none, none, 0, 10800000, 2, []⟩]
              + taskHours ⟨"t2", "Open", none, none, 0, 10800000, 2, []⟩ = 8 →
            handleAssignTask ⟨"e", 0, some 8⟩
              [⟨"t3", "Five", none, none, 0, 18000000, 2, [⟨"a2", ⟨"v1", "Amy"⟩⟩]⟩,
               ⟨"t2", "Open", none, none, 0, 10800000, 2, []⟩]
              (some "v1") none "t2" = .insert "t2" "v1")
        ∧ calculateVolunteerHours (some "v1")
              [⟨"t3", "Five", none, none, 0, 18000000, 2, [⟨"a2", ⟨"v1", "Amy"⟩⟩]⟩,
               ⟨"t2", "Open", none, none, 0, 10800000, 2, []⟩]
            = ((([⟨"t3", "Five", none, none, 0, 18000000, 2, [⟨"a2", ⟨"v1", "Amy"⟩⟩]⟩,
                  ⟨"t2", "Open", none, none, 0, 10800000, 2, []⟩] : List Task).filter
                  (fun t => t.task_assignments.any
                    (fun a => a.volunteer.id == "v1"))).map taskHours).sum) :=
  ⟨⟨rfl, by decide, by decide⟩,
   assign_hourCap_iff ⟨"e", 0, some 8⟩
     [⟨"t3", "Five", none, none, 0, 18000000, 2, [⟨"a2", ⟨"v1", "Amy"⟩⟩]⟩,
      ⟨"t2", "Open", none, none, 0, 10800000, 2, []⟩]
     "v1" "t2" ⟨"t2", "Open", none, none, 0, 10800000, 2, []⟩ 8
     rfl (by decide) (by decide) (by decide) (by decide) (by decide)⟩

theorem assign_check_order_witness :
    ("v1" : String) ≠ ""
      ∧ (1 : Nat) ≤ 1
      ∧ handleAssignTask ⟨"e", 0, some 8⟩
          [⟨"t1", "Shift", none, none, 0, 3600000, 1, [⟨"a1", ⟨"v1", "Amy"⟩⟩]⟩]
          (some "v1") none "t1" = .alreadyAssigned :=
  ⟨by decide, by decide,
   (assign_check_order ⟨"e", 0, some 8⟩
      [⟨"t1", "Shift", none, none, 0, 3600000, 1, [⟨"a1", ⟨"v1", "Amy"⟩⟩]⟩]
      "v1" "t1" ⟨"t1", "Shift", none, none, 0, 3600000, 1, [⟨"a1", ⟨"v1", "Amy"⟩⟩]⟩
      (by decide) (by decide) (by decide)).1 (by decide)⟩

/-! ### Interval Packer lemmas -/

/-- When the inner column search fails, every column end time exceeds
the item start. -/
theorem findCol_eq_none {s : Int} {cols : List Int}
    (h : findCol s cols = none) : ∀ v ∈ cols, s < v := by
  induction cols with
  | nil => simp
  | cons c rest ih =>
    by_cases hc : c ≤ s
    · simp [findCol, hc] at h
    · intro v hv
      rcases List.mem_cons.mp hv with rfl | hv2
      · omega
      · unfold findCol at h
        rw [if_neg hc, Option.map_eq_none'] at h
        exact ih h v hv2

/-- When the column search succeeds, the index is in range and the
column's current end time is at most the item start. -/
theorem findCol_eq_some {s : Int} {cols : List Int} {ci : Nat}
    (h : findCol s cols = some ci) :
    ci < cols.length ∧ ∀ v, cols[ci]? = some v → v ≤ s := by
  induction cols generalizing ci with
  | nil => simp [findCol] at h
  | cons c rest ih =>
    by_cases hc : c ≤ s
    · unfold findCol at h
      rw [if_pos hc] at h
      obtain rfl : ci = 0 := by
        have := h.symm
        simpa using this
      refine ⟨by simp, ?_⟩
      intro v hv
      simp at hv
      omega
    · unfold findCol at h
      rw [if_neg hc, Option.map_eq_some'] at h
      obtain ⟨cj, hcj, rfl⟩ := h
      obtain ⟨h1, h2⟩ := ih hcj
      refine ⟨by simpa using Nat.succ_lt_succ h1, ?_⟩
      intro v hv
      exact h2 v (by simpa using hv)

/-- The positioned items produced by `packAux` are exactly the consumed
items, in processing order, appended to the accumulator. -/
theorem packAux_map_fst (L : List DayItem) :
    ∀ (cols : List Int) (acc : List (DayItem × Nat)),
      (packAux cols acc L).1.map Prod.fst = acc.map Prod.fst ++ L := by
  induction L with
  | nil => intro cols acc; simp [packAux]
  | cons it rest ih =>
    intro cols acc
    unfold packAux
    cases hfc : findCol it.start cols with
    | some ci => simp [ih, List.map_append]
    | none => simp [ih, List.map_append]

/-- Elements of a stable insertion are the inserted element or old ones. -/
theorem insertByStart_mem {x z : DayItem} :
    ∀ {l : List DayItem}, z ∈ insertByStart x l → z = x ∨ z ∈ l := by
  intro l
  induction l with
  | nil => simp [insertByStart]
  | cons y ys ih =>
    intro h
    unfold insertByStart at h
    by_cases hlt : x.start < y.start
    · rw [if_pos hlt] at h
      rcases List.mem_cons.mp h with rfl | h2
      · exact Or.inl rfl
      · exact Or.inr h2
    · rw [if_neg hlt] at h
      rcases List.mem_cons.mp h with rfl | h2
      · exact Or.inr (by simp)
      · rcases ih h2 with rfl | h3
        · exact Or.inl rfl
        · exact Or.inr (by simp [h3])

/-- Stable insertion preserves sortedness by start. -/
theorem insertByStart_pairwise {x : DayItem} :
    ∀ {l : List DayItem},
      l.Pairwise (fun a b => a.start ≤ b.start) →
      (insertByStart x l).Pairwise (fun a b => a.start ≤ b.start) := by
  intro l
  induction l with
  | nil => intro _; simp [insertByStart]
  | cons y ys ih =>
    intro h
    rw [List.pairwise_cons] at h
    obtain ⟨hy, hys⟩ := h
    unfold insertByStart
    by_cases hlt : x.start < y.start
    · rw [if_pos hlt]
      refine List.Pairwise.cons ?_ (List.Pairwise.cons hy hys)
      intro z hz
      rcases List.mem_cons.mp hz with rfl | h2
      · omega
      · have := hy z h2
        omega
    · rw [if_neg hlt]
      refine List.Pairwise.cons ?_ (ih hys)
      intro z hz
      rcases insertByStart_mem hz with rfl | h2
      · omega
      · exact hy z h2

/-- The sort of `getDayItems` produces a list sorted by start. -/
theorem sortByStart_pairwise (items : List DayItem) :
    (sortByStart items).Pairwise (fun a b => a.start ≤ b.start) := by
  have main : ∀ (l acc : List DayItem),
      acc.Pairwise (fun a b => a.start ≤ b.start) →
      (l.foldl (fun acc x => insertByStart x acc) acc).Pairwise
        (fun a b => a.start ≤ b.start) := by
    intro l
    induction l with
    | nil => intro acc h; exact h
    | cons x xs ih => intro acc h; exact ih _ (insertByStart_pairwise h)
  exact main items [] (by simp)

/-- Placing an item into an existing free column preserves the packing
invariant, advancing the bound to the item's start. -/
theorem packInv_step_some {cols : List Int} {acc : List (DayItem × Nat)}
    {bound : Int} {it : DayItem} {ci : Nat}
    (hInv : PackInv cols acc bound) (hbd : bound ≤ it.start)
    (hfc : findCol it.start cols = some ci) :
    PackInv (cols.set ci it.stop) (acc ++ [(it, ci)]) it.start := by
  obtain ⟨hci, hval⟩ := findCol_eq_some hfc
  constructor
  · intro pc hpc
    rw [List.length_set]
    rcases List.mem_append.mp hpc with h | h
    · exact hInv.colLt pc h
    · simp at h
      subst h
      simpa using hci
  · intro pc hpc v hv
    rcases List.mem_append.mp hpc with h | h
    · by_cases hc : ci = pc.2
      · have hlt := hInv.colLt pc h
        obtain ⟨w, hw⟩ : ∃ w, cols[pc.2]? = some w :=
          ⟨_, List.getElem?_eq_getElem hlt⟩
        have hwci : cols[ci]? = some w := by rw [hc]; exact hw
        have hw2 : w ≤ it.start := hval w hwci
        rcases hInv.colVal pc h w hw with h2 | h2
        · right; omega
        · right; omega
      · rw [List.getElem?_set, if_neg hc] at hv
        rcases hInv.colVal pc h v hv with h2 | h2
        · exact Or.inl h2
        · right; omega
    · simp at h
      subst h
      simp [List.getElem?_set, hci] at hv
      simp
      omega
  · intro pc hpc
    rcases List.mem_append.mp hpc with h | h
    · have := hInv.startLe pc h
      omega
    · simp at h
      subst h
      simp
  · intro cj v hv
    by_cases hc : ci = cj
    · subst hc
      rw [List.getElem?_set, if_pos rfl, if_pos hci] at hv
      refine ⟨(it, ci), by simp, rfl, ?_⟩
      simpa using hv
    · rw [List.getElem?_set, if_neg hc] at hv
      obtain ⟨pc, hpc, h1, h2⟩ := hInv.support cj v hv
      exact ⟨pc, List.mem_append.mpr (Or.inl hpc), h1, h2⟩
  · rw [List.pairwise_append]
    refine ⟨hInv.sameColDisj, by simp, ?_⟩
    intro a ha b hb hab
    simp at hb
    subst hb
    simp only at hab
    have hlt : a.2 < cols.length := hInv.colLt a ha
    obtain ⟨w, hw⟩ : ∃ w, cols[a.2]? = some w :=
      ⟨_, List.getElem?_eq_getElem hlt⟩
    have hwci : cols[ci]? = some w := by rw [← hab]; exact hw
    have hw2 : w ≤ it.start := hval w hwci
    rcases hInv.colVal a ha w hw with h2 | h2
    · simp
      omega
    · simp
      omega

/-- Opening a new column for an item preserves the packing invariant,
advancing the bound to the item's start. -/
theorem packInv_step_none {cols : List Int} {acc : List (DayItem × Nat)}
    {bound : Int} {it : DayItem}
    (hInv : PackInv cols acc bound) (hbd : bound ≤ it.start)
    (hfc : findCol it.start cols = none) :
    PackInv (cols ++ [it.stop]) (acc ++ [(it, cols.length)]) it.start := by
  have hvals := findCol_eq_none hfc
  constructor
  · intro pc hpc
    rw [List.length_append]
    rcases List.mem_append.mp hpc with h | h
    · have := hInv.colLt pc h
      simp
      omega
    · simp at h
      subst h
      simp
  · intro pc hpc v hv
    rcases List.mem_append.mp hpc with h | h
    · have hlt := hInv.colLt pc h
      rw [List.getElem?_append, if_pos hlt] at hv
      rcases hInv.colVal pc h v hv with h2 | h2
      · exact Or.inl h2
      · right; omega
    · simp at h
      subst h
      simp only [List.getElem?_append] at hv
      rw [if_neg (by simp)] at hv
      simp at hv
      simp
      omega
  · intro pc hpc
    rcases List.mem_append.mp hpc with h | h
    · have := hInv.startLe pc h
      omega
    · simp at h
      subst h
      simp
  · intro cj v hv
    rw [List.getElem?_append] at hv
    by_cases hc : cj < cols.length
    · rw [if_pos hc] at hv
      obtain ⟨pc, hpc, h1, h2⟩ := hInv.support cj v hv
      exact ⟨pc, List.mem_append.mpr (Or.inl hpc), h1, h2⟩
    · rw [if_neg hc] at hv
      have hcj : cj = cols.length := by
        by_contra hne
        rw [List.getElem?_eq_none (by simp; omega)] at hv
        exact Option.noConfusion hv
      subst hcj
      rw [Nat.sub_self] at hv
      refine ⟨(it, cols.length), by simp, rfl, ?_⟩
      simpa using hv
  · rw [List.pairwise_append]
    refine ⟨hInv.sameColDisj, by simp, ?_⟩
    intro a ha b hb hab
    simp at hb
    subst hb
    simp only at hab
    have := hInv.colLt a ha
    omega

/-- Running `packAux` from an invariant state yields an invariant state
(for some advanced bound). -/
theorem packAux_inv (L : List DayItem) :
    ∀ (cols : List Int) (acc : List (DayItem × Nat)) (bound : Int),
      PackInv cols acc bound →
      (∀ it ∈ L, bound ≤ it.start) →
      L.Pairwise (fun a b => a.start ≤ b.start) →
      ∃ bound2, PackInv (packAux cols acc L).2 (packAux cols acc L).1 bound2 := by
  induction L with
  | nil => intro cols acc bound hInv _ _; exact ⟨bound, hInv⟩
  | cons it rest ih =>
    intro cols acc bound hInv hge hpw
    rw [List.pairwise_cons] at hpw
    have hbd : bound ≤ it.start := hge it (by simp)
    have hge2 : ∀ r ∈ rest, it.start ≤ r.start := hpw.1
    unfold packAux
    cases hfc : findCol it.start cols with
    | some ci =>
      exact ih _ _ it.start (packInv_step_some hInv hbd hfc) hge2 hpw.2
    | none =>
      exact ih _ _ it.start (packInv_step_none hInv hbd hfc) hge2 hpw.2

/-- `itemsLowerBound` really bounds every start from below. -/
theorem itemsLowerBound_le (items : List DayItem) :
    ∀ it ∈ items, itemsLowerBound items ≤ it.start := by
  unfold itemsLowerBound
  induction items with
  | nil => simp
  | cons x xs ih =>
    intro it hit
    rcases List.mem_cons.mp hit with rfl | h2
    · simp [min_le_left]
    · calc ((x :: xs).map DayItem.start).foldr min 0
          ≤ (xs.map DayItem.start).foldr min 0 := by simp [min_le_right]
        _ ≤ it.start := ih it h2

/-- Depth over the bare items equals depth over positioned pairs. -/
theorem depthAt_map_fst (acc : List (DayItem × Nat)) (t : Int) :
    depthAt (acc.map Prod.fst) t = accDepth acc t := by
  unfold depthAt accDepth
  rw [List.filter_map, List.length_map]
  rfl

/-- A list of naturals containing all of `0, …, n-1` has length `≥ n`. -/
theorem length_ge_of_contains_range {l : List Nat} {n : Nat}
    (h : ∀ ci, ci < n → ci ∈ l) : n ≤ l.length := by
  have hsub : Finset.range n ⊆ l.toFinset := by
    intro x hx
    rw [List.mem_toFinset]
    exact h x (Finset.mem_range.mp hx)
  calc n = (Finset.range n).card := (Finset.card_range n).symm
    _ ≤ l.toFinset.card := Finset.card_le_card hsub
    _ ≤ l.length := l.toFinset_card_le

/-- A duplicate-free list of naturals below `n` has length `≤ n`. -/
theorem length_le_of_nodup_lt {l : List Nat} {n : Nat}
    (hnd : l.Nodup) (hlt : ∀ x ∈ l, x < n) : l.length ≤ n := by
  calc l.length = l.toFinset.card := (List.toFinset_card_of_nodup hnd).symm
    _ ≤ (Finset.range n).card := Finset.card_le_card (by
        intro x hx
        rw [Finset.mem_range]
        exact hlt x (List.mem_toFinset.mp hx))
    _ = n := Finset.card_range n

/-- When every column end time lies strictly beyond an instant `s` that
all positioned items have started by, the instant `s` is covered by at
least one positioned item per column. -/
theorem depth_lower {cols : List Int} {acc : List (DayItem × Nat)}
    {bound : Int} (hInv : PackInv cols acc bound)
    {s : Int} (hbd : bound ≤ s) (hvals : ∀ v ∈ cols, s < v) :
    cols.length ≤ accDepth acc s := by
  unfold accDepth
  have hmem : ∀ ci, ci < cols.length →
      ci ∈ (acc.filter fun pc =>
              decide (pc.1.start ≤ s) && decide (s < pc.1.stop)).map
            (fun pc => pc.2) := by
    intro ci hci
    obtain ⟨w, hw⟩ : ∃ w, cols[ci]? = some w := ⟨_, List.getElem?_eq_getElem hci⟩
    obtain ⟨pc, hpc, h1, h2⟩ := hInv.support ci w hw
    have hwmem : w ∈ cols := List.getElem?_mem hw
    have hsw : s < w := hvals w hwmem
    have hstart : pc.1.start ≤ s := le_trans (hInv.startLe pc hpc) hbd
    have hstop : s < pc.1.stop := by omega
    refine List.mem_map.mpr ⟨pc, List.mem_filter.mpr ⟨hpc, ?_⟩, h1⟩
    simp [hstart, hstop]
  have := length_ge_of_contains_range hmem
  simpa using this

/-- No instant is covered by more positioned items than there are
columns: items covering a common instant sit in pairwise distinct
columns. -/
theorem depth_upper {cols : List Int} {acc : List (DayItem × Nat)}
    {bound : Int} (hInv : PackInv cols acc bound) (t : Int) :
    accDepth acc t ≤ cols.length := by
  unfold accDepth
  have hpwF : (acc.filter fun pc =>
      decide (pc.1.start ≤ t) && decide (t < pc.1.stop)).Pairwise
        (fun a b => a.2 = b.2 → a.1.stop ≤ b.1.start) :=
    List.Pairwise.sublist (List.filter_sublist acc) hInv.sameColDisj
  have hnd : ((acc.filter fun pc =>
      decide (pc.1.start ≤ t) && decide (t < pc.1.stop)).map
        (fun pc => pc.2)).Nodup := by
    rw [List.Nodup, List.pairwise_map]
    refine hpwF.imp_of_mem ?_
    intro a b ha hb hR heq
    have hca := List.mem_filter.mp ha
    have hcb := List.mem_filter.mp hb
    simp only [Bool.and_eq_true, decide_eq_true_eq] at hca hcb
    have := hR heq
    omega
  have hbound : ∀ x ∈ (acc.filter fun pc =>
      decide (pc.1.start ≤ t) && decide (t < pc.1.stop)).map (fun pc => pc.2),
      x < cols.length := by
    intro x hx
    obtain ⟨pc, hpc, rfl⟩ := List.mem_map.mp hx
    exact hInv.colLt pc (List.mem_filter.mp hpc).1
  have := length_le_of_nodup_lt hnd hbound
  simpa using this

/-- `packAux` preserves the depth witness: whenever a new column is
opened, the opening item's start instant is simultaneously covered by
one item from every existing column and by the opening item itself. -/
theorem packAux_depth (L : List DayItem) :
    ∀ (cols : List Int) (acc : List (DayItem × Nat)) (bound : Int),
      PackInv cols acc bound →
      (∀ r ∈ L, bound ≤ r.start) →
      L.Pairwise (fun a b => a.start ≤ b.start) →
      (∀ r ∈ L, r.start < r.stop) →
      DepthWit cols acc →
      DepthWit (packAux cols acc L).2 (packAux cols acc L).1 := by
  induction L with
  | nil => intro cols acc bound _ _ _ _ hw; exact hw
  | cons it rest ih =>
    intro cols acc bound hInv hge hpw hstrict hw
    rw [List.pairwise_cons] at hpw
    have hbd : bound ≤ it.start := hge it (by simp)
    unfold packAux
    cases hfc : findCol it.start cols with
    | some ci =>
      refine ih _ _ it.start (packInv_step_some hInv hbd hfc)
        hpw.1 hpw.2 (fun r hr => hstrict r (by simp [hr])) ?_
      rcases hw with hnil | ⟨t, ht⟩
      · rw [hnil] at hfc
        simp [findCol] at hfc
      · right
        refine ⟨t, ?_⟩
        rw [List.length_set]
        calc cols.length ≤ accDepth acc t := ht
          _ ≤ accDepth (acc ++ [(it, ci)]) t := by
              unfold accDepth
              rw [List.filter_append, List.length_append]
              omega
    | none =>
      refine ih _ _ it.start (packInv_step_none hInv hbd hfc)
        hpw.1 hpw.2 (fun r hr => hstrict r (by simp [hr])) ?_
      right
      refine ⟨it.start, ?_⟩
      have hlow := depth_lower hInv hbd (findCol_eq_none hfc)
      have hone : accDepth (acc ++ [(it, cols.length)]) it.start
          = accDepth acc it.start + 1 := by
        unfold accDepth
        rw [List.filter_append, List.length_append]
        simp [hstrict it (by simp)]
      rw [List.length_append, hone]
      simp only [List.length_cons, List.length_nil]
      omega

/-- The `getDayItems` output in packer form. -/
theorem getDayItems_eq_packAux (taskTypes : List TaskType) (tasks : List Task)
    (dayStart : Int) :
    getDayItems taskTypes tasks dayStart =
      ((packAux [] []
          (sortByStart
            ((groupTasks (selectDayTasks tasks dayStart)).map
              (mkDayItem taskTypes dayStart)))).1,
       (packAux [] []
          (sortByStart
            ((groupTasks (selectDayTasks tasks dayStart)).map
              (mkDayItem taskTypes dayStart)))).2.length) := rfl

/-- Same-column disjointness for the packer run on any sorted input. -/
theorem packAux_sameCol (items : List DayItem) :
    ((packAux [] [] (sortByStart items)).1).Pairwise
      (fun a b => a.2 = b.2 → a.1.stop ≤ b.1.start) := by
  have hInv0 : PackInv ([] : List Int) [] (itemsLowerBound (sortByStart items)) := by
    constructor <;> simp
  obtain ⟨b2, hInv⟩ := packAux_inv (sortByStart items) [] [] _ hInv0
    (itemsLowerBound_le (sortByStart items)) (sortByStart_pairwise items)
  exact hInv.sameColDisj

/-- C3: any two groups that the packer places in the same column have
non-overlapping clipped `[start, stop)` intervals — the one placed
first ends at or before the other starts. -/
theorem getDayItems_same_column_disjoint (taskTypes : List TaskType)
    (tasks : List Task) (dayStart : Int) :
    ((getDayItems taskTypes tasks dayStart).1).Pairwise
      (fun a b => a.2 = b.2 → a.1.stop ≤ b.1.start ∨ b.1.stop ≤ a.1.start) := by
  rw [getDayItems_eq_packAux]
  exact (packAux_sameCol _).imp (fun h hab => Or.inl (h hab))

/-- C2 (amended): provided every produced group has a *nonempty* clipped
interval, the recorded column count equals the maximum over all instants
of the number of groups simultaneously covering that instant. -/
theorem getDayItems_colCount_eq_max_overlap (taskTypes : List TaskType)
    (tasks : List Task) (dayStart : Int)
    (hne : ∀ p ∈ (getDayItems taskTypes tasks dayStart).1, p.1.start < p.1.stop) :
    (∀ t, depthAt ((getDayItems taskTypes tasks dayStart).1.map Prod.fst) t
        ≤ (getDayItems taskTypes tasks dayStart).2)
    ∧ ∃ t, depthAt ((getDayItems taskTypes tasks dayStart).1.map Prod.fst) t
        = (getDayItems taskTypes tasks dayStart).2 := by
  rw [getDayItems_eq_packAux] at hne ⊢
  set sorted := sortByStart
      ((groupTasks (selectDayTasks tasks dayStart)).map
        (mkDayItem taskTypes dayStart)) with hsorted
  simp only at hne ⊢
  have hfst : (packAux [] [] sorted).1.map Prod.fst = sorted := by
    simpa using packAux_map_fst sorted [] []
  have hstrict : ∀ r ∈ sorted, r.start < r.stop := by
    intro r hr
    have : r ∈ (packAux [] [] sorted).1.map Prod.fst := by rw [hfst]; exact hr
    obtain ⟨p, hp, rfl⟩ := List.mem_map.mp this
    exact hne p hp
  have hInv0 : PackInv ([] : List Int) [] (itemsLowerBound sorted) := by
    constructor <;> simp
  obtain ⟨b2, hInvF⟩ := packAux_inv sorted [] [] _ hInv0
    (itemsLowerBound_le sorted) (sortByStart_pairwise _)
  have hwit : DepthWit (packAux [] [] sorted).2 (packAux [] [] sorted).1 :=
    packAux_depth sorted [] [] _ hInv0 (itemsLowerBound_le sorted)
      (sortByStart_pairwise _) hstrict (Or.inl rfl)
  have hupper : ∀ t, depthAt ((packAux [] [] sorted).1.map Prod.fst) t
      ≤ (packAux [] [] sorted).2.length := by
    intro t
    rw [depthAt_map_fst]
    exact depth_upper hInvF t
  refine ⟨hupper, ?_⟩
  rcases hwit with hnil | ⟨t, ht⟩
  · refine ⟨0, ?_⟩
    rw [hnil]
    have := hupper 0
    rw [hnil] at this
    simpa using this
  · exact ⟨t, le_antisymm (hupper t) (by rw [depthAt_map_fst]; exact ht)⟩

/-- C2 fails as stated: a task ending exactly at the day start is
selected (see the C6 boundary) and clips to the empty interval
`[dayStart, dayStart)`; the packer still opens a column for it, so the
recorded column count is `1` while no instant is covered by any group —
the maximum simultaneous overlap is `0`. -/
theorem packer_colCount_empty_interval_cex :
    (getDayItems [] [⟨"z", "Z", none, none, -3600000, 0, 1, []⟩] 0).2 = 1
      ∧ ∀ t : Int,
          depthAt
            ((getDayItems [] [⟨"z", "Z", none, none, -3600000, 0, 1, []⟩] 0).1.map
              Prod.fst) t = 0 := by
  constructor
  · decide
  · intro t
    have h1 : (getDayItems [] [⟨"z", "Z", none, none, -3600000, 0, 1, []⟩] 0).1.map
        Prod.fst
        = [⟨"Z", 0, 0, [⟨"z", "Z", none, none, -3600000, 0, 1, []⟩], 1, 0, none⟩] := by
      decide
    rw [h1]
    have hc : ¬ ((0 : Int) ≤ t ∧ t < 0) := by omega
    simp only [depthAt, List.filter_cons, List.filter_nil, Bool.and_eq_true,
      decide_eq_true_eq]
    rw [if_neg hc]
    rfl

theorem getDayItems_colCount_eq_max_overlap_witness :
    (∀ p ∈ (getDayItems []
        [⟨"A", "A", none, none, 32400000, 36000000, 1, []⟩,
         ⟨"B", "B", none, none, 34200000, 37800000, 1, []⟩,
         ⟨"C", "C", none, none, 36000000, 39600000, 1, []⟩] 0).1,
        p.1.start < p.1.stop)
      ∧ ((∀ t, depthAt ((getDayItems []
            [⟨"A", "A", none, none, 32400000, 36000000, 1, []⟩,
             ⟨"B", "B", none, none, 34200000, 37800000, 1, []⟩,
             ⟨"C", "C", none, none, 36000000, 39600000, 1, []⟩] 0).1.map Prod.fst) t
            ≤ (getDayItems []
                [⟨"A", "A", none, none, 32400000, 36000000, 1, []⟩,
                 ⟨"B", "B", none, none, 34200000, 37800000, 1, []⟩,
                 ⟨"C", "C", none, none, 36000000, 39600000, 1, []⟩] 0).2)
          ∧ ∃ t, depthAt ((getDayItems []
              [⟨"A", "A", none, none, 32400000, 36000000, 1, []⟩,
               ⟨"B", "B", none, none, 34200000, 37800000, 1, []⟩,
               ⟨"C", "C", none, none, 36000000, 39600000, 1, []⟩] 0).1.map Prod.fst) t
              = (getDayItems []
                  [⟨"A", "A", none, none, 32400000, 36000000, 1, []⟩,
                   ⟨"B", "B", none, none, 34200000, 37800000, 1, []⟩,
                   ⟨"C", "C", none, none, 36000000, 39600000, 1, []⟩] 0).2)
      ∧ (getDayItems []
          [⟨"A", "A", none, none, 32400000, 36000000, 1, []⟩,
           ⟨"B", "B", none, none, 34200000, 37800000, 1, []⟩,
           ⟨"C", "C", none, none, 36000000, 39600000, 1, []⟩] 0).2 = 2
      ∧ (getDayItems []
          [⟨"A", "A", none, none, 32400000, 36000000, 1, []⟩,
           ⟨"B", "B", none, none, 34200000, 37800000, 1, []⟩,
           ⟨"C", "C", none, none, 36000000, 39600000, 1, []⟩] 0).1.map
          (fun p => (p.1.id, p.2)) = [("A", 0), ("B", 1), ("C", 0)] :=
  ⟨by decide,
   getDayItems_colCount_eq_max_overlap []
     [⟨"A", "A", none, none, 32400000, 36000000, 1, []⟩,
      ⟨"B", "B", none, none, 34200000, 37800000, 1, []⟩,
      ⟨"C", "C", none, none, 36000000, 39600000, 1, []⟩] 0 (by decide),
   by decide, by decide⟩

end EventCalendar
